import Mathlib

/-!
Verification development for the `read-primitives` Rust crate.

The crate extends any `std::io::Read` source with typed, byte-order-aware
primitive decoding: for each numeric type `T` in
`u16, i16, u32, i32, u64, i64, u128, i128, usize, isize, f32, f64` it
provides `read_ne_T`, `read_le_T`, `read_be_T` (read `size_of::<T>()`
bytes with `read_exact`, convert with `T::from_ne_bytes` /
`from_le_bytes` / `from_be_bytes`), plus `read_u8`, `read_char`
(4 bytes, native order, validated with `char::from_u32`) and
`read_bool` (one byte, nonzero means `true`).

Modelling choices of the shallow embedding:
* A byte is a `Nat`; well-formed bytes are `< 256`.
* A slice source (`&[u8]`, the source used by the crate's tests and doc
  example) is the list of its remaining bytes; `std`'s slice
  implementation of `read_exact` compares the requested length against
  the remaining length, and on a short read advances the slice to its
  end (it consumes every remaining byte) before returning
  `ErrorKind::UnexpectedEof`.
* Machine integers are `Nat` (unsigned) or `Int` (signed, two's
  complement through reduction modulo `2 ^ width`).
* `f32` / `f64` values are represented by their IEEE-754 bit patterns
  (a `Nat` below `2 ^ 32` / `2 ^ 64`): the crate only moves bytes, and
  `from_le_bytes` / `to_le_bytes` on floats are bit-level conversions,
  so a bit-for-bit statement is exactly a statement about the patterns.
* `usize` / `isize` have a platform-dependent byte width, carried as an
  explicit parameter `pw` (Rust guarantees `pw ≥ 2`; every real target
  has `pw ∈ {2, 4, 8}`).
* The host's native byte order is an explicit `Endian` parameter `ne`;
  theorems quantify over it, covering both possible hosts.
* A general `Read` source (for the frame/error-propagation claims about
  `std`'s default `read_exact` loop) is modelled by `GSrc` below: the
  bytes it can still deliver, the chunk sizes of its successive `read`
  calls, and the error it reports once the chunks are exhausted.
  `ErrorKind::Interrupted` retrying is `std`-internal and a persistently
  interrupted source makes the loop diverge, so interrupted errors are
  not part of the error model.
-/

/-- Byte order selector: little-endian or big-endian.  The host's
native order is one of the two and is passed as a parameter `ne`. -/
inductive Endian where
  | little
  | big
deriving DecidableEq, Repr

/-- Abstraction of `std::io::Error`: the short-read error
(`ErrorKind::UnexpectedEof`, produced by `read_exact`) or any other
error value reported by a source, tagged by a code so that distinct
source failures are distinct values. -/
inductive IOError where
  | unexpectedEof
  | other (code : Nat)
deriving DecidableEq, Repr

/-- Model of `T::from_le_bytes`: value of a little-endian byte list
(first byte least significant). -/
def fromLeBytes : List Nat → Nat
  | [] => 0
  | b :: rest => b + 256 * fromLeBytes rest

/-- Model of `T::from_be_bytes`: value of a big-endian byte list
(first byte most significant). -/
def fromBeBytes : List Nat → Nat
  | [] => 0
  | b :: rest => b * 256 ^ rest.length + fromBeBytes rest

/-- Byte-list-to-value conversion under a byte order. -/
def fromBytes : Endian → List Nat → Nat
  | .little, bs => fromLeBytes bs
  | .big, bs => fromBeBytes bs

/-- Model of `T::to_le_bytes`: the `w` little-endian bytes of a value. -/
def toLeBytes : Nat → Nat → List Nat
  | 0, _ => []
  | w + 1, v => v % 256 :: toLeBytes w (v / 256)

/-- Model of `T::to_be_bytes`: the `w` big-endian bytes of a value. -/
def toBeBytes (w v : Nat) : List Nat :=
  (toLeBytes w v).reverse

/-- Value-to-byte-list conversion under a byte order. -/
def toBytes : Endian → Nat → Nat → List Nat
  | .little, w, v => toLeBytes w v
  | .big, w, v => toBeBytes w v

/-- Two's complement reading of an unsigned `bits`-bit value as a
signed integer (`v as iN` in Rust). -/
def toSigned (bits : Nat) (v : Nat) : Int :=
  if v < 2 ^ (bits - 1) then (v : Int) else (v : Int) - 2 ^ bits

/-- Model of `iN::to_le_bytes` of a signed value: the little-endian bytes of its
two's complement representative modulo `2 ^ (8 * w)`. -/
def toLeBytesI (w : Nat) (v : Int) : List Nat :=
  toLeBytes w (v % ((2 : Int) ^ (8 * w))).toNat

/-- Model of `iN::to_be_bytes` of a signed value. -/
def toBeBytesI (w : Nat) (v : Int) : List Nat :=
  (toLeBytesI w v).reverse

/-- Signed value-to-byte-list conversion under a byte order. -/
def toBytesI : Endian → Nat → Int → List Nat
  | .little, w, v => toLeBytesI w v
  | .big, w, v => toBeBytesI w v

/-- Model of `<&[u8] as Read>::read_exact`, following `std`'s slice
implementation: if the slice holds fewer than `n` bytes it advances
the slice to its end (`*self = &self[self.len()..]`, consuming every
remaining byte) and fails with `ErrorKind::UnexpectedEof`; otherwise
it yields the first `n` bytes and the advanced slice. -/
def readExactSlice (n : Nat) (s : List Nat) :
    Except IOError (List Nat) × List Nat :=
  if s.length < n then (.error .unexpectedEof, [])
  else (.ok (s.take n), s.drop n)

/-- The macro-generated read method body for an unsigned (or float,
via its bit pattern) numeric type of byte width `w` under byte order
`e`, on a slice source: `read_exact` into a `w`-byte buffer, then
`from_?e_bytes`.  Returns the `io::Result` and the advanced source. -/
def readNum (w : Nat) (e : Endian) (s : List Nat) :
    Except IOError Nat × List Nat :=
  match readExactSlice w s with
  | (.ok bs, rest) => (.ok (fromBytes e bs), rest)
  | (.error er, rest) => (.error er, rest)

/-- The macro-generated read method body for a signed numeric type of
byte width `w` under byte order `e`, on a slice source. -/
def readNumS (w : Nat) (e : Endian) (s : List Nat) :
    Except IOError Int × List Nat :=
  match readNum w e s with
  | (.ok v, rest) => (.ok (toSigned (8 * w) v), rest)
  | (.error er, rest) => (.error er, rest)

/-! The generated per-type methods.  `ne` is the host's native byte
order; `pw` is the platform's `size_of::<usize>()`.  `f32` / `f64`
results are IEEE-754 bit patterns. -/

def read_ne_u16 (ne : Endian) : List Nat → Except IOError Nat × List Nat := readNum 2 ne
def read_le_u16 : List Nat → Except IOError Nat × List Nat := readNum 2 .little
def read_be_u16 : List Nat → Except IOError Nat × List Nat := readNum 2 .big
def read_ne_u32 (ne : Endian) : List Nat → Except IOError Nat × List Nat := readNum 4 ne
def read_le_u32 : List Nat → Except IOError Nat × List Nat := readNum 4 .little
def read_be_u32 : List Nat → Except IOError Nat × List Nat := readNum 4 .big
def read_ne_u64 (ne : Endian) : List Nat → Except IOError Nat × List Nat := readNum 8 ne
def read_le_u64 : List Nat → Except IOError Nat × List Nat := readNum 8 .little
def read_be_u64 : List Nat → Except IOError Nat × List Nat := readNum 8 .big
def read_ne_u128 (ne : Endian) : List Nat → Except IOError Nat × List Nat := readNum 16 ne
def read_le_u128 : List Nat → Except IOError Nat × List Nat := readNum 16 .little
def read_be_u128 : List Nat → Except IOError Nat × List Nat := readNum 16 .big
def read_ne_usize (pw : Nat) (ne : Endian) : List Nat → Except IOError Nat × List Nat := readNum pw ne
def read_le_usize (pw : Nat) : List Nat → Except IOError Nat × List Nat := readNum pw .little
def read_be_usize (pw : Nat) : List Nat → Except IOError Nat × List Nat := readNum pw .big

def read_ne_i16 (ne : Endian) : List Nat → Except IOError Int × List Nat := readNumS 2 ne
def read_le_i16 : List Nat → Except IOError Int × List Nat := readNumS 2 .little
def read_be_i16 : List Nat → Except IOError Int × List Nat := readNumS 2 .big
def read_ne_i32 (ne : Endian) : List Nat → Except IOError Int × List Nat := readNumS 4 ne
def read_le_i32 : List Nat → Except IOError Int × List Nat := readNumS 4 .little
def read_be_i32 : List Nat → Except IOError Int × List Nat := readNumS 4 .big
def read_ne_i64 (ne : Endian) : List Nat → Except IOError Int × List Nat := readNumS 8 ne
def read_le_i64 : List Nat → Except IOError Int × List Nat := readNumS 8 .little
def read_be_i64 : List Nat → Except IOError Int × List Nat := readNumS 8 .big
def read_ne_i128 (ne : Endian) : List Nat → Except IOError Int × List Nat := readNumS 16 ne
def read_le_i128 : List Nat → Except IOError Int × List Nat := readNumS 16 .little
def read_be_i128 : List Nat → Except IOError Int × List Nat := readNumS 16 .big
def read_ne_isize (pw : Nat) (ne : Endian) : List Nat → Except IOError Int × List Nat := readNumS pw ne
def read_le_isize (pw : Nat) : List Nat → Except IOError Int × List Nat := readNumS pw .little
def read_be_isize (pw : Nat) : List Nat → Except IOError Int × List Nat := readNumS pw .big

def read_ne_f32 (ne : Endian) : List Nat → Except IOError Nat × List Nat := readNum 4 ne
def read_le_f32 : List Nat → Except IOError Nat × List Nat := readNum 4 .little
def read_be_f32 : List Nat → Except IOError Nat × List Nat := readNum 4 .big
def read_ne_f64 (ne : Endian) : List Nat → Except IOError Nat × List Nat := readNum 8 ne
def read_le_f64 : List Nat → Except IOError Nat × List Nat := readNum 8 .little
def read_be_f64 : List Nat → Except IOError Nat × List Nat := readNum 8 .big

/-- Model of `ReadU8::read_u8`: one byte through `read_exact`, then
`u8::from_ne_bytes` (order irrelevant on one byte; `ne` kept for
fidelity). -/
def read_u8 (ne : Endian) : List Nat → Except IOError Nat × List Nat :=
  readNum 1 ne

/-- Model of `char::from_u32`: `some` the code point when it is a Unicode scalar
value, `none` when it is a surrogate (`0xD800 ..= 0xDFFF`) or exceeds
the maximum code point `0x10FFFF`. -/
def char_from_u32 (v : Nat) : Option Nat :=
  if (0xD800 ≤ v ∧ v ≤ 0xDFFF) ∨ 0x10FFFF < v then none else some v

/-- Model of `ReadChar::read_char`: four bytes through `read_exact`,
`u32::from_ne_bytes`, then `char::from_u32`. -/
def read_char (ne : Endian) (s : List Nat) :
    Except IOError (Option Nat) × List Nat :=
  match readNum 4 ne s with
  | (.ok v, rest) => (.ok (char_from_u32 v), rest)
  | (.error er, rest) => (.error er, rest)

/-- Model of `ReadBool::read_bool`: one byte through `read_exact`,
`u8::from_ne_bytes`, then `≠ 0`. -/
def read_bool (ne : Endian) (s : List Nat) :
    Except IOError Bool × List Nat :=
  match readNum 1 ne s with
  | (.ok v, rest) => (.ok (v != 0), rest)
  | (.error er, rest) => (.error er, rest)

/-- A general `Read` source: `data` is the sequence of bytes it can
still deliver (its read position is its original length minus
`data.length`); `chunks` lists the maximum number of bytes each of its
successive `read` calls returns (a real source may return fewer bytes
than requested); once `chunks` is exhausted the source reports
`tailErr` (`none` models clean end of input, i.e. `read` returning
`Ok(0)` from then on). -/
structure GSrc where
  data : List Nat
  chunks : List Nat
  tailErr : Option IOError
deriving DecidableEq, Repr

/-- The loop of `std`'s default `Read::read_exact`: repeatedly `read`
into the unfilled part of the buffer; a read of zero bytes breaks the
loop and an unfilled buffer is reported as `ErrorKind::UnexpectedEof`;
any error from `read` is returned as is.  `acc` is the filled part of
the buffer, `n` the number of bytes still needed; returns the result
together with the source's remaining data and chunks. -/
def readExactGo (data : List Nat) (chunks : List Nat)
    (tailErr : Option IOError) (n : Nat) (acc : List Nat) :
    Except IOError (List Nat) × List Nat × List Nat :=
  if n = 0 then (.ok acc, data, chunks)
  else
    match chunks with
    | [] =>
      match tailErr with
      | none => (.error .unexpectedEof, data, [])
      | some e => (.error e, data, [])
    | c :: cs =>
      let k := min (min c n) data.length
      if k = 0 then (.error .unexpectedEof, data, cs)
      else readExactGo (data.drop k) cs tailErr (n - k) (acc ++ data.take k)

/-- Model of `Read::read_exact` (default implementation) on a general source. -/
def readExactG (src : GSrc) (n : Nat) : Except IOError (List Nat) × GSrc :=
  match readExactGo src.data src.chunks src.tailErr n [] with
  | (r, data, chunks) => (r, ⟨data, chunks, src.tailErr⟩)

/-- The macro-generated read method body for a numeric type of byte
width `w` under byte order `e`, on a general source. -/
def readNumG (w : Nat) (e : Endian) (src : GSrc) :
    Except IOError Nat × GSrc :=
  match readExactG src w with
  | (.ok bs, src2) => (.ok (fromBytes e bs), src2)
  | (.error er, src2) => (.error er, src2)

/-! ### Arithmetic facts about the byte conversions -/

theorem length_toLeBytes (w v : Nat) : (toLeBytes w v).length = w := by
  induction w generalizing v with
  | zero => rfl
  | succ w ih => simp [toLeBytes, ih]

theorem toLeBytes_lt (w v : Nat) : ∀ b ∈ toLeBytes w v, b < 256 := by
  induction w generalizing v with
  | zero => intro b hb; simp [toLeBytes] at hb
  | succ w ih =>
    intro b hb
    simp only [toLeBytes, List.mem_cons] at hb
    rcases hb with h | h
    · omega
    · exact ih (v / 256) b h

theorem mod_pow_succ256 (v w : Nat) :
    v % 256 ^ (w + 1) = v % 256 + 256 * (v / 256 % 256 ^ w) := by
  conv_lhs => rw [← Nat.div_add_mod (v % 256 ^ (w + 1)) 256]
  rw [Nat.mod_mod_of_dvd _ (dvd_pow_self 256 (Nat.succ_ne_zero w)),
    pow_succ', Nat.mod_mul_right_div_self]
  ring

theorem fromLeBytes_toLeBytes (w v : Nat) :
    fromLeBytes (toLeBytes w v) = v % 256 ^ w := by
  induction w generalizing v with
  | zero => simp [toLeBytes, fromLeBytes, Nat.mod_one]
  | succ w ih =>
    simp only [toLeBytes, fromLeBytes, ih]
    exact (mod_pow_succ256 v w).symm

theorem fromBeBytes_append (xs : List Nat) (b : Nat) :
    fromBeBytes (xs ++ [b]) = 256 * fromBeBytes xs + b := by
  induction xs with
  | nil => simp [fromBeBytes]
  | cons x xs ih =>
    simp only [List.cons_append, fromBeBytes, ih, List.append_eq,
      List.length_append, List.length_cons, List.length_nil]
    ring

theorem fromBeBytes_reverse (xs : List Nat) :
    fromBeBytes xs.reverse = fromLeBytes xs := by
  induction xs with
  | nil => rfl
  | cons x xs ih =>
    simp only [List.reverse_cons, fromBeBytes_append, ih, fromLeBytes]
    ring

theorem fromLeBytes_reverse (xs : List Nat) :
    fromLeBytes xs.reverse = fromBeBytes xs := by
  have h := fromBeBytes_reverse xs.reverse
  rw [List.reverse_reverse] at h
  exact h.symm

theorem fromLeBytes_lt (bs : List Nat) (h : ∀ b ∈ bs, b < 256) :
    fromLeBytes bs < 256 ^ bs.length := by
  induction bs with
  | nil => simp [fromLeBytes]
  | cons b rest ih =>
    have hb : b < 256 := h b (List.mem_cons_self b rest)
    have hr : fromLeBytes rest < 256 ^ rest.length :=
      ih (fun x hx => h x (List.mem_cons_of_mem b hx))
    calc b + 256 * fromLeBytes rest
        < 256 * (fromLeBytes rest + 1) := by omega
      _ ≤ 256 * 256 ^ rest.length := Nat.mul_le_mul_left 256 hr
      _ = 256 ^ (b :: rest).length := by
          simp [List.length_cons, pow_succ]; ring

theorem fromLeBytes_inj (bs : List Nat) : ∀ cs : List Nat,
    bs.length = cs.length → (∀ b ∈ bs, b < 256) → (∀ b ∈ cs, b < 256) →
    fromLeBytes bs = fromLeBytes cs → bs = cs := by
  induction bs with
  | nil =>
    intro cs hlen _ _ _
    cases cs with
    | nil => rfl
    | cons c cs => simp at hlen
  | cons b rest ih =>
    intro cs hlen hb hc h
    cases cs with
    | nil => simp at hlen
    | cons c cs =>
      have hb1 : b < 256 := hb b (List.mem_cons_self b rest)
      have hc1 : c < 256 := hc c (List.mem_cons_self c cs)
      simp only [fromLeBytes] at h
      have hbc : b = c ∧
          fromLeBytes rest = fromLeBytes cs := by constructor <;> omega
      have htail : rest = cs := by
        refine ih cs (by simpa using hlen) ?_ ?_ hbc.2
        · exact fun x hx => hb x (List.mem_cons_of_mem b hx)
        · exact fun x hx => hc x (List.mem_cons_of_mem c hx)
      rw [hbc.1, htail]

theorem pow256_eq (w : Nat) : (256 : Nat) ^ w = 2 ^ (8 * w) := by
  rw [show (256 : Nat) = 2 ^ 8 by norm_num, ← pow_mul]

theorem toSigned_inj (bits : Nat) (v1 v2 : Nat) (h1 : v1 < 2 ^ bits)
    (h2 : v2 < 2 ^ bits) (h : toSigned bits v1 = toSigned bits v2) :
    v1 = v2 := by
  cases bits with
  | zero =>
    simp only [pow_zero, Nat.lt_one_iff] at h1 h2
    rw [h1, h2]
  | succ b =>
    have hc1 : ((v1 : Int)) < 2 ^ (b + 1) := by exact_mod_cast h1
    have hc2 : ((v2 : Int)) < 2 ^ (b + 1) := by exact_mod_cast h2
    have hn1 : (0 : Int) ≤ (v1 : Int) := Int.natCast_nonneg v1
    have hn2 : (0 : Int) ≤ (v2 : Int) := Int.natCast_nonneg v2
    simp only [toSigned, Nat.add_sub_cancel] at h
    split_ifs at h with ha hb hb
    · exact_mod_cast h
    · exfalso; linarith
    · exfalso; linarith
    · have : (v1 : Int) = (v2 : Int) := by linarith
      exact_mod_cast this

theorem toSigned_emod (n : Nat) (hn : 1 ≤ n) (v : Int)
    (hlo : -(2 ^ (n - 1)) ≤ v) (hhi : v < 2 ^ (n - 1)) :
    toSigned n (v % (2 : Int) ^ n).toNat = v := by
  obtain ⟨b, rfl⟩ : ∃ b, n = b + 1 := ⟨n - 1, by omega⟩
  simp only [Nat.add_sub_cancel] at hlo hhi
  have hsplit : (2 : Int) ^ (b + 1) = 2 ^ b + 2 ^ b := by ring
  have hp : (0 : Int) ≤ 2 ^ b := by positivity
  rcases le_or_lt 0 v with hv0 | hv0
  · have hmod : v % (2 : Int) ^ (b + 1) = v :=
      Int.emod_eq_of_lt hv0 (by linarith)
    rw [hmod]
    simp only [toSigned, Nat.add_sub_cancel]
    have hlt : v.toNat < 2 ^ b := by
      have hcast : (v.toNat : Int) < ((2 : Nat) ^ b : Int) := by
        rw [Int.toNat_of_nonneg hv0]; push_cast; exact hhi
      exact_mod_cast hcast
    rw [if_pos hlt, Int.toNat_of_nonneg hv0]
  · have hmod : v % (2 : Int) ^ (b + 1) = v + 2 ^ (b + 1) := by
      have h1 : (v + 2 ^ (b + 1) * 1) % (2 : Int) ^ (b + 1) =
          v % (2 : Int) ^ (b + 1) :=
        Int.add_mul_emod_self_left v ((2 : Int) ^ (b + 1)) 1
      have h2 : (v + 2 ^ (b + 1)) % (2 : Int) ^ (b + 1) = v + 2 ^ (b + 1) :=
        Int.emod_eq_of_lt (by linarith) (by linarith)
      rw [mul_one] at h1
      rw [← h1, h2]
    rw [hmod]
    simp only [toSigned, Nat.add_sub_cancel]
    have hnn : (0 : Int) ≤ v + 2 ^ (b + 1) := by linarith
    have hnotlt : ¬ ((v + 2 ^ (b + 1)).toNat < 2 ^ b) := by
      intro hcon
      have hcast : ((v + 2 ^ (b + 1)).toNat : Int) < ((2 : Nat) ^ b : Int) := by
        exact_mod_cast hcon
      rw [Int.toNat_of_nonneg hnn] at hcast
      push_cast at hcast
      linarith
    rw [if_neg hnotlt, Int.toNat_of_nonneg hnn]
    ring

/-! ### Decoding on a slice holding exactly the encoded bytes -/

theorem fromBytes_toBytes (e : Endian) (w v : Nat) (hv : v < 2 ^ (8 * w)) :
    fromBytes e (toBytes e w v) = v := by
  have hv2 : v < 256 ^ w := by rw [pow256_eq]; exact hv
  cases e with
  | little =>
    simp only [fromBytes, toBytes, fromLeBytes_toLeBytes]
    exact Nat.mod_eq_of_lt hv2
  | big =>
    simp only [fromBytes, toBytes, toBeBytes, fromBeBytes_reverse,
      fromLeBytes_toLeBytes]
    exact Nat.mod_eq_of_lt hv2

theorem length_toBytes (e : Endian) (w v : Nat) :
    (toBytes e w v).length = w := by
  cases e <;> simp [toBytes, toBeBytes, length_toLeBytes]

theorem readExactSlice_full (s : List Nat) :
    readExactSlice s.length s = (.ok s, []) := by
  simp [readExactSlice]

theorem readNum_full (w : Nat) (e : Endian) (s : List Nat)
    (h : s.length = w) : readNum w e s = (.ok (fromBytes e s), []) := by
  subst h
  unfold readNum
  rw [readExactSlice_full]

theorem readNum_toBytes (w : Nat) (e : Endian) (v : Nat)
    (hv : v < 2 ^ (8 * w)) :
    readNum w e (toBytes e w v) = (.ok v, []) := by
  rw [readNum_full w e _ (length_toBytes e w v), fromBytes_toBytes e w v hv]

theorem toBytesI_eq (e : Endian) (w : Nat) (v : Int) :
    toBytesI e w v = toBytes e w (v % (2 : Int) ^ (8 * w)).toNat := by
  cases e <;> rfl

theorem readNumS_toBytesI (w : Nat) (hw : 1 ≤ w) (e : Endian) (v : Int)
    (hlo : -(2 ^ (8 * w - 1)) ≤ v) (hhi : v < 2 ^ (8 * w - 1)) :
    readNumS w e (toBytesI e w v) = (.ok v, []) := by
  have hBpos : (0 : Int) < 2 ^ (8 * w) := by positivity
  have h0 : (0 : Int) ≤ v % (2 : Int) ^ (8 * w) :=
    Int.emod_nonneg v (by positivity)
  have hn : (v % (2 : Int) ^ (8 * w)).toNat < 2 ^ (8 * w) := by
    have hlt : v % (2 : Int) ^ (8 * w) < 2 ^ (8 * w) :=
      Int.emod_lt_of_pos v hBpos
    have hcast : ((v % (2 : Int) ^ (8 * w)).toNat : Int) <
        ((2 : Nat) ^ (8 * w) : Int) := by
      rw [Int.toNat_of_nonneg h0]; push_cast; exact hlt
    exact_mod_cast hcast
  unfold readNumS
  rw [toBytesI_eq, readNum_toBytes w e _ hn]
  show (Except.ok (toSigned (8 * w) (v % (2 : Int) ^ (8 * w)).toNat),
      ([] : List Nat)) = (Except.ok v, [])
  rw [toSigned_emod (8 * w) (by omega) v hlo hhi]

/-! ### Unfolding lemmas for the slice-based operations -/

theorem readExactSlice_le (n : Nat) (s : List Nat) (h : n ≤ s.length) :
    readExactSlice n s = (.ok (s.take n), s.drop n) := by
  unfold readExactSlice
  rw [if_neg (by omega)]

theorem readExactSlice_short (n : Nat) (s : List Nat) (h : s.length < n) :
    readExactSlice n s = (.error .unexpectedEof, []) := by
  unfold readExactSlice
  rw [if_pos h]

theorem readNum_le (w : Nat) (e : Endian) (s : List Nat) (h : w ≤ s.length) :
    readNum w e s = (.ok (fromBytes e (s.take w)), s.drop w) := by
  unfold readNum
  rw [readExactSlice_le w s h]

theorem readNum_short (w : Nat) (e : Endian) (s : List Nat)
    (h : s.length < w) : readNum w e s = (.error .unexpectedEof, []) := by
  unfold readNum
  rw [readExactSlice_short w s h]

theorem readNumS_le (w : Nat) (e : Endian) (s : List Nat) (h : w ≤ s.length) :
    readNumS w e s =
      (.ok (toSigned (8 * w) (fromBytes e (s.take w))), s.drop w) := by
  unfold readNumS
  rw [readNum_le w e s h]

theorem readNumS_short (w : Nat) (e : Endian) (s : List Nat)
    (h : s.length < w) : readNumS w e s = (.error .unexpectedEof, []) := by
  unfold readNumS
  rw [readNum_short w e s h]

theorem read_char_le (ne : Endian) (s : List Nat) (h : 4 ≤ s.length) :
    read_char ne s =
      (.ok (char_from_u32 (fromBytes ne (s.take 4))), s.drop 4) := by
  unfold read_char
  rw [readNum_le 4 ne s h]

theorem read_char_short (ne : Endian) (s : List Nat) (h : s.length < 4) :
    read_char ne s = (.error .unexpectedEof, []) := by
  unfold read_char
  rw [readNum_short 4 ne s h]

theorem read_bool_le (ne : Endian) (s : List Nat) (h : 1 ≤ s.length) :
    read_bool ne s =
      (.ok (fromBytes ne (s.take 1) != 0), s.drop 1) := by
  unfold read_bool
  rw [readNum_le 1 ne s h]

theorem read_bool_short (ne : Endian) (s : List Nat) (h : s.length < 1) :
    read_bool ne s = (.error .unexpectedEof, []) := by
  unfold read_bool
  rw [readNum_short 1 ne s h]

theorem fromBytes_single (e : Endian) (b : Nat) : fromBytes e [b] = b := by
  cases e <;> simp [fromBytes, fromLeBytes, fromBeBytes]

/-! ### Equation lemmas for the default `read_exact` loop -/

theorem readExactGo_zero (data chunks : List Nat) (te : Option IOError)
    (acc : List Nat) : readExactGo data chunks te 0 acc = (.ok acc, data, chunks) := by
  unfold readExactGo
  simp

theorem readExactGo_nil_none (data : List Nat) (n : Nat) (acc : List Nat)
    (hn : n ≠ 0) :
    readExactGo data [] none n acc = (.error .unexpectedEof, data, []) := by
  unfold readExactGo
  simp [hn]

theorem readExactGo_nil_some (data : List Nat) (er : IOError) (n : Nat)
    (acc : List Nat) (hn : n ≠ 0) :
    readExactGo data [] (some er) n acc = (.error er, data, []) := by
  unfold readExactGo
  simp [hn]

theorem readExactGo_cons_zero (data : List Nat) (c : Nat) (cs : List Nat)
    (te : Option IOError) (n : Nat) (acc : List Nat) (hn : n ≠ 0)
    (hk : min (min c n) data.length = 0) :
    readExactGo data (c :: cs) te n acc = (.error .unexpectedEof, data, cs) := by
  unfold readExactGo
  simp [hn, hk]

theorem readExactGo_cons_pos (data : List Nat) (c : Nat) (cs : List Nat)
    (te : Option IOError) (n : Nat) (acc : List Nat) (hn : n ≠ 0)
    (hk : min (min c n) data.length ≠ 0) :
    readExactGo data (c :: cs) te n acc =
      readExactGo (data.drop (min (min c n) data.length)) cs te
        (n - min (min c n) data.length)
        (acc ++ data.take (min (min c n) data.length)) := by
  conv_lhs => unfold readExactGo
  rw [if_neg hn]
  show (if min (min c n) data.length = 0
      then ((.error .unexpectedEof, data, cs) :
        Except IOError (List Nat) × List Nat × List Nat)
      else readExactGo (data.drop (min (min c n) data.length)) cs te
        (n - min (min c n) data.length)
        (acc ++ data.take (min (min c n) data.length))) = _
  rw [if_neg hk]

/-- Frame property of the default `read_exact` loop: for some `k`, the
source's data advances by exactly `k` bytes; on success the buffer got
exactly the next `n` bytes and `k = n`; on failure `k < n` (the bytes
actually read before the failure). -/
theorem readExactGo_spec (chunks : List Nat) : ∀ (data : List Nat)
    (te : Option IOError) (n : Nat) (acc : List Nat),
    ∃ k, k ≤ n ∧ k ≤ data.length ∧
      (readExactGo data chunks te n acc).2.1 = data.drop k ∧
      (∀ got, (readExactGo data chunks te n acc).1 = .ok got →
        k = n ∧ got = acc ++ data.take n) ∧
      (∀ er, (readExactGo data chunks te n acc).1 = .error er → k < n) := by
  induction chunks with
  | nil =>
    intro data te n acc
    by_cases hn : n = 0
    · subst hn
      refine ⟨0, le_refl 0, Nat.zero_le _, ?_, ?_, ?_⟩
      · rw [readExactGo_zero]; simp
      · intro got hgot
        rw [readExactGo_zero] at hgot
        simp at hgot
        simp [hgot]
      · intro er her
        rw [readExactGo_zero] at her
        simp at her
    · refine ⟨0, Nat.zero_le n, Nat.zero_le _, ?_, ?_, ?_⟩
      · cases te with
        | none => rw [readExactGo_nil_none _ _ _ hn]; simp
        | some er => rw [readExactGo_nil_some _ _ _ _ hn]; simp
      · intro got hgot
        cases te with
        | none => rw [readExactGo_nil_none _ _ _ hn] at hgot; simp at hgot
        | some er => rw [readExactGo_nil_some _ _ _ _ hn] at hgot; simp at hgot
      · intro er her
        omega
  | cons c cs ih =>
    intro data te n acc
    by_cases hn : n = 0
    · subst hn
      refine ⟨0, le_refl 0, Nat.zero_le _, ?_, ?_, ?_⟩
      · rw [readExactGo_zero]; simp
      · intro got hgot
        rw [readExactGo_zero] at hgot
        simp at hgot
        simp [hgot]
      · intro er her
        rw [readExactGo_zero] at her
        simp at her
    · by_cases hkz : min (min c n) data.length = 0
      · refine ⟨0, Nat.zero_le n, Nat.zero_le _, ?_, ?_, ?_⟩
        · rw [readExactGo_cons_zero data c cs te n acc hn hkz]; simp
        · intro got hgot
          rw [readExactGo_cons_zero data c cs te n acc hn hkz] at hgot
          simp at hgot
        · intro er her
          omega
      · rw [readExactGo_cons_pos data c cs te n acc hn hkz]
        obtain ⟨k2, hk2n, hk2len, hdrop, hok, herr⟩ :=
          ih (data.drop (min (min c n) data.length)) te
            (n - min (min c n) data.length)
            (acc ++ data.take (min (min c n) data.length))
        have hmn : min (min c n) data.length ≤ n :=
          le_trans (min_le_left _ _) (min_le_right c n)
        have hmd : min (min c n) data.length ≤ data.length :=
          min_le_right _ _
        rw [List.length_drop] at hk2len
        refine ⟨min (min c n) data.length + k2, by omega, by omega, ?_, ?_, ?_⟩
        · rw [hdrop, List.drop_drop]
        · intro got hgot
          obtain ⟨hk2eq, hgoteq⟩ := hok got hgot
          refine ⟨by omega, ?_⟩
          rw [hgoteq, List.append_assoc]
          congr 1
          rw [← List.take_add]
          congr 1
          omega
        · intro er her
          have := herr er her
          omega

/-- Every error returned by the default `read_exact` loop is either the
short-read `UnexpectedEof` it raises itself or exactly the error the
source reported. -/
theorem readExactGo_error (chunks : List Nat) : ∀ (data : List Nat)
    (te : Option IOError) (n : Nat) (acc : List Nat) (er : IOError),
    (readExactGo data chunks te n acc).1 = .error er →
    er = .unexpectedEof ∨ te = some er := by
  induction chunks with
  | nil =>
    intro data te n acc er her
    by_cases hn : n = 0
    · subst hn; rw [readExactGo_zero] at her; simp at her
    · cases te with
      | none =>
        rw [readExactGo_nil_none _ _ _ hn] at her
        simp at her
        exact Or.inl her.symm
      | some e =>
        rw [readExactGo_nil_some _ _ _ _ hn] at her
        simp at her
        exact Or.inr (by rw [her])
  | cons c cs ih =>
    intro data te n acc er her
    by_cases hn : n = 0
    · subst hn; rw [readExactGo_zero] at her; simp at her
    · by_cases hkz : min (min c n) data.length = 0
      · rw [readExactGo_cons_zero _ _ _ _ _ _ hn hkz] at her
        simp at her
        exact Or.inl her.symm
      · rw [readExactGo_cons_pos _ _ _ _ _ _ hn hkz] at her
        exact ih _ te _ _ er her

/-- Lemma `readExactGo_spec`, packaged for `readExactG` on a `GSrc`. -/
theorem readExactG_spec (src : GSrc) (n : Nat) :
    ∃ k, k ≤ n ∧ k ≤ src.data.length ∧
      (readExactG src n).2.data = src.data.drop k ∧
      (∀ got, (readExactG src n).1 = .ok got →
        k = n ∧ got = src.data.take n) ∧
      (∀ er, (readExactG src n).1 = .error er → k < n) := by
  obtain ⟨k, h1, h2, h3, h4, h5⟩ :=
    readExactGo_spec src.chunks src.data src.tailErr n []
  rcases hgo : readExactGo src.data src.chunks src.tailErr n [] with ⟨r, d, c⟩
  rw [hgo] at h3 h4 h5
  unfold readExactG
  rw [hgo]
  refine ⟨k, h1, h2, h3, ?_, h5⟩
  intro got hgot
  obtain ⟨hk, hgoteq⟩ := h4 got hgot
  exact ⟨hk, by simpa using hgoteq⟩

theorem readExactG_fst (src : GSrc) (n : Nat) :
    (readExactG src n).1 =
      (readExactGo src.data src.chunks src.tailErr n []).1 := by
  unfold readExactG
  rcases hgo : readExactGo src.data src.chunks src.tailErr n [] with ⟨r, d, c⟩
  rfl

/-- Lemma `readExactGo_error`, packaged for `readExactG` on a `GSrc`. -/
theorem readExactG_error (src : GSrc) (n : Nat) (er : IOError)
    (h : (readExactG src n).1 = .error er) :
    er = .unexpectedEof ∨ src.tailErr = some er := by
  rw [readExactG_fst] at h
  exact readExactGo_error src.chunks src.data src.tailErr n [] er h

/-- The generic numeric read returns exactly `read_exact`'s error. -/
theorem readNumG_error_iff (w : Nat) (e : Endian) (src : GSrc)
    (er : IOError) :
    (readNumG w e src).1 = .error er ↔ (readExactG src w).1 = .error er := by
  unfold readNumG
  rcases hre : readExactG src w with ⟨r, s2⟩
  cases r <;> simp

/-- The generic numeric read advances the source exactly as
`read_exact` does. -/
theorem readNumG_snd (w : Nat) (e : Endian) (src : GSrc) :
    (readNumG w e src).2 = (readExactG src w).2 := by
  unfold readNumG
  rcases hre : readExactG src w with ⟨r, s2⟩
  cases r <;> rfl

/-- A slice's `read_exact` fails only with `UnexpectedEof`. -/
theorem readExactSlice_error (n : Nat) (s : List Nat) (er : IOError)
    (h : (readExactSlice n s).1 = .error er) : er = .unexpectedEof := by
  unfold readExactSlice at h
  by_cases hlt : s.length < n
  · rw [if_pos hlt] at h
    simpa using h.symm
  · rw [if_neg hlt] at h
    simp at h

theorem readNum_error_iff (w : Nat) (e : Endian) (s : List Nat)
    (er : IOError) :
    (readNum w e s).1 = .error er ↔ (readExactSlice w s).1 = .error er := by
  unfold readNum
  rcases hre : readExactSlice w s with ⟨r, rest⟩
  cases r <;> simp

theorem readNumS_error_iff (w : Nat) (e : Endian) (s : List Nat)
    (er : IOError) :
    (readNumS w e s).1 = .error er ↔ (readExactSlice w s).1 = .error er := by
  refine Iff.trans ?_ (readNum_error_iff w e s er)
  unfold readNumS
  rcases hre : readNum w e s with ⟨r, rest⟩
  cases r <;> simp

theorem read_char_error_iff (ne : Endian) (s : List Nat) (er : IOError) :
    (read_char ne s).1 = .error er ↔ (readExactSlice 4 s).1 = .error er := by
  refine Iff.trans ?_ (readNum_error_iff 4 ne s er)
  unfold read_char
  rcases hre : readNum 4 ne s with ⟨r, rest⟩
  cases r <;> simp

theorem read_bool_error_iff (ne : Endian) (s : List Nat) (er : IOError) :
    (read_bool ne s).1 = .error er ↔ (readExactSlice 1 s).1 = .error er := by
  refine Iff.trans ?_ (readNum_error_iff 1 ne s er)
  unfold read_bool
  rcases hre : readNum 1 ne s with ⟨r, rest⟩
  cases r <;> simp

theorem readNumS_full (w : Nat) (e : Endian) (s : List Nat)
    (h : s.length = w) :
    readNumS w e s = (.ok (toSigned (8 * w) (fromBytes e s)), []) := by
  unfold readNumS
  rw [readNum_full w e s h]

theorem read_char_full (ne : Endian) (s : List Nat) (h : s.length = 4) :
    read_char ne s = (.ok (char_from_u32 (fromBytes ne s)), []) := by
  unfold read_char
  rw [readNum_full 4 ne s h]

theorem read_bool_full (ne : Endian) (s : List Nat) (h : s.length = 1) :
    read_bool ne s = (.ok (fromBytes ne s != 0), []) := by
  unfold read_bool
  rw [readNum_full 1 ne s h]

theorem readNumS_snd (w : Nat) (e : Endian) (s : List Nat) :
    (readNumS w e s).2 = (readNum w e s).2 := by
  unfold readNumS
  rcases hre : readNum w e s with ⟨r, rest⟩
  cases r <;> rfl

theorem read_char_snd (ne : Endian) (s : List Nat) :
    (read_char ne s).2 = (readNum 4 ne s).2 := by
  unfold read_char
  rcases hre : readNum 4 ne s with ⟨r, rest⟩
  cases r <;> rfl

theorem read_bool_snd (ne : Endian) (s : List Nat) :
    (read_bool ne s).2 = (readNum 1 ne s).2 := by
  unfold read_bool
  rcases hre : readNum 1 ne s with ⟨r, rest⟩
  cases r <;> rfl

theorem readNumS_fst (w : Nat) (e : Endian) (s : List Nat) :
    (readNumS w e s).1 = (readNum w e s).1.map (toSigned (8 * w)) := by
  unfold readNumS
  rcases hre : readNum w e s with ⟨r, rest⟩
  cases r <;> rfl

theorem read_char_fst (ne : Endian) (s : List Nat) :
    (read_char ne s).1 = (readNum 4 ne s).1.map char_from_u32 := by
  unfold read_char
  rcases hre : readNum 4 ne s with ⟨r, rest⟩
  cases r <;> rfl

theorem read_bool_fst (ne : Endian) (s : List Nat) :
    (read_bool ne s).1 = (readNum 1 ne s).1.map (· != 0) := by
  unfold read_bool
  rcases hre : readNum 1 ne s with ⟨r, rest⟩
  cases r <;> rfl

/-! ### Contract properties, named so the claim theorems can state them
uniformly for every decode operation -/

/-- Decoding from a source holding exactly `N` bytes succeeds and
leaves the source exhausted; from `N - 1` bytes it fails with the
short-read I/O error and returns no partial value (the slice itself is
consumed to its end by `std`'s slice `read_exact` before it errors). -/
def ExactConsumption {α : Type} (N : Nat)
    (op : List Nat → Except IOError α × List Nat) : Prop :=
  (∀ s, s.length = N → ∃ v, op s = (.ok v, [])) ∧
  (∀ s, s.length = N - 1 → op s = (.error .unexpectedEof, []))

/-- On any slice shorter than `N` the operation fails with the
short-read error and the slice source is advanced to its end: all of
its remaining bytes are consumed by the failing `read_exact`. -/
def ShortReadConsumesAll {α : Type} (N : Nat)
    (op : List Nat → Except IOError α × List Nat) : Prop :=
  ∀ s, s.length < N → op s = (.error .unexpectedEof, [])

/-- The slice advances by exactly `N` bytes on success; on failure it
advances to its end — by all of its remaining bytes, the bytes the
slice source consumed before reporting the failure, strictly fewer
than `N`. -/
def AdvancesExactly {α : Type} (N : Nat)
    (op : List Nat → Except IOError α × List Nat) : Prop :=
  (∀ s, N ≤ s.length → (op s).2 = s.drop N) ∧
  (∀ s, s.length < N → (op s).2 = [])

/-- The decode outcome (value or error) depends only on the first `N`
bytes of the source. -/
def OutcomeDependsOnPrefix {α : Type} (N : Nat)
    (op : List Nat → Except IOError α × List Nat) : Prop :=
  ∀ s t, s.take N = t.take N → (op s).1 = (op t).1

/-- The operation fails with an error value exactly when `read_exact`
does, and with the identical error value (bare `?` propagation). -/
def PropagatesReadExact {α : Type} (N : Nat)
    (op : List Nat → Except IOError α × List Nat) : Prop :=
  ∀ s er, (op s).1 = .error er ↔ (readExactSlice N s).1 = .error er

/-- Little- and big-endian decodes of the same non-palindromic
well-formed byte sequence differ. -/
def OrderDistinct {α : Type} (N : Nat)
    (opLe opBe : List Nat → Except IOError α × List Nat) : Prop :=
  ∀ bs, bs.length = N → (∀ b ∈ bs, b < 256) → bs ≠ bs.reverse →
    (opLe bs).1 ≠ (opBe bs).1

/-- Each ordering's decode equals the other ordering's decode of the
byte-reversed input. -/
def OrderReversal {α : Type} (N : Nat)
    (opLe opBe : List Nat → Except IOError α × List Nat) : Prop :=
  ∀ bs, bs.length = N →
    (opLe bs).1 = (opBe bs.reverse).1 ∧ (opBe bs).1 = (opLe bs.reverse).1

/-! ### Master lemmas instantiating the contract properties -/

theorem exactConsumption_readNum (w : Nat) (hw : 1 ≤ w) (e : Endian) :
    ExactConsumption w (readNum w e) := by
  constructor
  · intro s hs
    exact ⟨fromBytes e s, readNum_full w e s hs⟩
  · intro s hs
    exact readNum_short w e s (by omega)

theorem exactConsumption_readNumS (w : Nat) (hw : 1 ≤ w) (e : Endian) :
    ExactConsumption w (readNumS w e) := by
  constructor
  · intro s hs
    exact ⟨toSigned (8 * w) (fromBytes e s), readNumS_full w e s hs⟩
  · intro s hs
    exact readNumS_short w e s (by omega)

theorem exactConsumption_read_char (ne : Endian) :
    ExactConsumption 4 (read_char ne) := by
  constructor
  · intro s hs
    exact ⟨char_from_u32 (fromBytes ne s), read_char_full ne s hs⟩
  · intro s hs
    exact read_char_short ne s (by omega)

theorem exactConsumption_read_bool (ne : Endian) :
    ExactConsumption 1 (read_bool ne) := by
  constructor
  · intro s hs
    exact ⟨(fromBytes ne s != 0), read_bool_full ne s hs⟩
  · intro s hs
    exact read_bool_short ne s (by omega)

theorem shortConsumesAll_readNum (w : Nat) (e : Endian) :
    ShortReadConsumesAll w (readNum w e) :=
  fun s hs => readNum_short w e s hs

theorem shortConsumesAll_readNumS (w : Nat) (e : Endian) :
    ShortReadConsumesAll w (readNumS w e) :=
  fun s hs => readNumS_short w e s hs

theorem shortConsumesAll_read_char (ne : Endian) :
    ShortReadConsumesAll 4 (read_char ne) :=
  fun s hs => read_char_short ne s hs

theorem shortConsumesAll_read_bool (ne : Endian) :
    ShortReadConsumesAll 1 (read_bool ne) :=
  fun s hs => read_bool_short ne s hs

theorem advances_readNum (w : Nat) (e : Endian) :
    AdvancesExactly w (readNum w e) := by
  constructor
  · intro s hs
    rw [readNum_le w e s hs]
  · intro s hs
    rw [readNum_short w e s hs]

theorem advances_readNumS (w : Nat) (e : Endian) :
    AdvancesExactly w (readNumS w e) := by
  obtain ⟨h1, h2⟩ := advances_readNum w e
  exact ⟨fun s hs => by rw [readNumS_snd]; exact h1 s hs,
    fun s hs => by rw [readNumS_snd]; exact h2 s hs⟩

theorem advances_read_char (ne : Endian) :
    AdvancesExactly 4 (read_char ne) := by
  obtain ⟨h1, h2⟩ := advances_readNum 4 ne
  exact ⟨fun s hs => by rw [read_char_snd]; exact h1 s hs,
    fun s hs => by rw [read_char_snd]; exact h2 s hs⟩

theorem advances_read_bool (ne : Endian) :
    AdvancesExactly 1 (read_bool ne) := by
  obtain ⟨h1, h2⟩ := advances_readNum 1 ne
  exact ⟨fun s hs => by rw [read_bool_snd]; exact h1 s hs,
    fun s hs => by rw [read_bool_snd]; exact h2 s hs⟩

theorem prefixDet_readNum (w : Nat) (e : Endian) :
    OutcomeDependsOnPrefix w (readNum w e) := by
  intro s t h
  have hlen : min w s.length = min w t.length := by
    have h1 := congrArg List.length h
    simpa [List.length_take] using h1
  by_cases hs : s.length < w
  · have ht : t.length < w := by omega
    rw [readNum_short w e s hs, readNum_short w e t ht]
  · rw [readNum_le w e s (by omega), readNum_le w e t (by omega)]
    simp [h]

theorem prefixDet_readNumS (w : Nat) (e : Endian) :
    OutcomeDependsOnPrefix w (readNumS w e) := by
  intro s t h
  rw [readNumS_fst, readNumS_fst, prefixDet_readNum w e s t h]

theorem prefixDet_read_char (ne : Endian) :
    OutcomeDependsOnPrefix 4 (read_char ne) := by
  intro s t h
  rw [read_char_fst, read_char_fst, prefixDet_readNum 4 ne s t h]

theorem prefixDet_read_bool (ne : Endian) :
    OutcomeDependsOnPrefix 1 (read_bool ne) := by
  intro s t h
  rw [read_bool_fst, read_bool_fst, prefixDet_readNum 1 ne s t h]

theorem propagates_readNum (w : Nat) (e : Endian) :
    PropagatesReadExact w (readNum w e) :=
  fun s er => readNum_error_iff w e s er

theorem propagates_readNumS (w : Nat) (e : Endian) :
    PropagatesReadExact w (readNumS w e) :=
  fun s er => readNumS_error_iff w e s er

theorem propagates_read_char (ne : Endian) :
    PropagatesReadExact 4 (read_char ne) :=
  fun s er => read_char_error_iff ne s er

theorem propagates_read_bool (ne : Endian) :
    PropagatesReadExact 1 (read_bool ne) :=
  fun s er => read_bool_error_iff ne s er

theorem bytes_lt_of_reverse (bs : List Nat) (hb : ∀ b ∈ bs, b < 256) :
    ∀ b ∈ bs.reverse, b < 256 :=
  fun b hbm => hb b (List.mem_reverse.mp hbm)

theorem orderDistinct_readNum (w : Nat) :
    OrderDistinct w (readNum w .little) (readNum w .big) := by
  intro bs hlen hb hne
  have hfb : fromBeBytes bs = fromLeBytes bs.reverse :=
    (fromLeBytes_reverse bs).symm
  rw [readNum_full w .little bs hlen, readNum_full w .big bs hlen]
  simp only [fromBytes]
  intro hcontra
  have hval : fromLeBytes bs = fromBeBytes bs := by simpa using hcontra
  apply hne
  apply fromLeBytes_inj bs bs.reverse (by simp) hb (bytes_lt_of_reverse bs hb)
  rw [← hfb]
  exact hval

theorem orderReversal_readNum (w : Nat) :
    OrderReversal w (readNum w .little) (readNum w .big) := by
  intro bs hlen
  have hrev : bs.reverse.length = w := by simpa using hlen
  constructor
  · rw [readNum_full w .little bs hlen, readNum_full w .big bs.reverse hrev]
    simp [fromBytes, fromBeBytes_reverse]
  · rw [readNum_full w .big bs hlen, readNum_full w .little bs.reverse hrev]
    simp [fromBytes, fromLeBytes_reverse]

theorem orderDistinct_readNumS (w : Nat) :
    OrderDistinct w (readNumS w .little) (readNumS w .big) := by
  intro bs hlen hb hne
  rw [readNumS_full w .little bs hlen, readNumS_full w .big bs hlen]
  simp only [fromBytes]
  intro hcontra
  have hval : toSigned (8 * w) (fromLeBytes bs) =
      toSigned (8 * w) (fromBeBytes bs) := by simpa using hcontra
  have hlt1 : fromLeBytes bs < 2 ^ (8 * w) := by
    have hkey := fromLeBytes_lt bs hb
    rw [hlen, pow256_eq] at hkey
    exact hkey
  have hlt2 : fromBeBytes bs < 2 ^ (8 * w) := by
    rw [← fromLeBytes_reverse]
    have hkey := fromLeBytes_lt bs.reverse (bytes_lt_of_reverse bs hb)
    rw [List.length_reverse, hlen, pow256_eq] at hkey
    exact hkey
  have hval2 : fromLeBytes bs = fromBeBytes bs :=
    toSigned_inj (8 * w) _ _ hlt1 hlt2 hval
  apply hne
  apply fromLeBytes_inj bs bs.reverse (by simp) hb (bytes_lt_of_reverse bs hb)
  rw [fromLeBytes_reverse]
  exact hval2

theorem orderReversal_readNumS (w : Nat) :
    OrderReversal w (readNumS w .little) (readNumS w .big) := by
  intro bs hlen
  constructor
  · rw [readNumS_fst, readNumS_fst, (orderReversal_readNum w bs hlen).1]
  · rw [readNumS_fst, readNumS_fst, (orderReversal_readNum w bs hlen).2]

/-! ### The claims -/

/-- Claim C1: for every supported numeric type T
(`u16, i16, u32, i32, u64, i64, u128, i128, usize, isize, f32, f64`)
and every ordering O in `{native, little, big}`, encoding a value `v`
of type T to bytes under O (`to_ne_bytes` / `to_le_bytes` /
`to_be_bytes`) and then decoding those bytes with the corresponding
`read_ne_T` / `read_le_T` / `read_be_T` operation yields exactly `v`
(bit-for-bit for floats, which are represented here by their IEEE-754
bit patterns).  `ne` ranges over both possible host orders and `pw`
over every pointer width. -/
theorem claim_C1_round_trip :
    (∀ ne v, v < 2 ^ 16 → read_ne_u16 ne (toBytes ne 2 v) = (.ok v, [])) ∧
    (∀ v, v < 2 ^ 16 → read_le_u16 (toLeBytes 2 v) = (.ok v, [])) ∧
    (∀ v, v < 2 ^ 16 → read_be_u16 (toBeBytes 2 v) = (.ok v, [])) ∧
    (∀ ne v, -2 ^ 15 ≤ v → v < 2 ^ 15 →
      read_ne_i16 ne (toBytesI ne 2 v) = (.ok v, [])) ∧
    (∀ v, -2 ^ 15 ≤ v → v < 2 ^ 15 →
      read_le_i16 (toLeBytesI 2 v) = (.ok v, [])) ∧
    (∀ v, -2 ^ 15 ≤ v → v < 2 ^ 15 →
      read_be_i16 (toBeBytesI 2 v) = (.ok v, [])) ∧
    (∀ ne v, v < 2 ^ 32 → read_ne_u32 ne (toBytes ne 4 v) = (.ok v, [])) ∧
    (∀ v, v < 2 ^ 32 → read_le_u32 (toLeBytes 4 v) = (.ok v, [])) ∧
    (∀ v, v < 2 ^ 32 → read_be_u32 (toBeBytes 4 v) = (.ok v, [])) ∧
    (∀ ne v, -2 ^ 31 ≤ v → v < 2 ^ 31 →
      read_ne_i32 ne (toBytesI ne 4 v) = (.ok v, [])) ∧
    (∀ v, -2 ^ 31 ≤ v → v < 2 ^ 31 →
      read_le_i32 (toLeBytesI 4 v) = (.ok v, [])) ∧
    (∀ v, -2 ^ 31 ≤ v → v < 2 ^ 31 →
      read_be_i32 (toBeBytesI 4 v) = (.ok v, [])) ∧
    (∀ ne v, v < 2 ^ 64 → read_ne_u64 ne (toBytes ne 8 v) = (.ok v, [])) ∧
    (∀ v, v < 2 ^ 64 → read_le_u64 (toLeBytes 8 v) = (.ok v, [])) ∧
    (∀ v, v < 2 ^ 64 → read_be_u64 (toBeBytes 8 v) = (.ok v, [])) ∧
    (∀ ne v, -2 ^ 63 ≤ v → v < 2 ^ 63 →
      read_ne_i64 ne (toBytesI ne 8 v) = (.ok v, [])) ∧
    (∀ v, -2 ^ 63 ≤ v → v < 2 ^ 63 →
      read_le_i64 (toLeBytesI 8 v) = (.ok v, [])) ∧
    (∀ v, -2 ^ 63 ≤ v → v < 2 ^ 63 →
      read_be_i64 (toBeBytesI 8 v) = (.ok v, [])) ∧
    (∀ ne v, v < 2 ^ 128 → read_ne_u128 ne (toBytes ne 16 v) = (.ok v, [])) ∧
    (∀ v, v < 2 ^ 128 → read_le_u128 (toLeBytes 16 v) = (.ok v, [])) ∧
    (∀ v, v < 2 ^ 128 → read_be_u128 (toBeBytes 16 v) = (.ok v, [])) ∧
    (∀ ne v, -2 ^ 127 ≤ v → v < 2 ^ 127 →
      read_ne_i128 ne (toBytesI ne 16 v) = (.ok v, [])) ∧
    (∀ v, -2 ^ 127 ≤ v → v < 2 ^ 127 →
      read_le_i128 (toLeBytesI 16 v) = (.ok v, [])) ∧
    (∀ v, -2 ^ 127 ≤ v → v < 2 ^ 127 →
      read_be_i128 (toBeBytesI 16 v) = (.ok v, [])) ∧
    (∀ pw ne v, v < 2 ^ (8 * pw) →
      read_ne_usize pw ne (toBytes ne pw v) = (.ok v, [])) ∧
    (∀ pw v, v < 2 ^ (8 * pw) →
      read_le_usize pw (toLeBytes pw v) = (.ok v, [])) ∧
    (∀ pw v, v < 2 ^ (8 * pw) →
      read_be_usize pw (toBeBytes pw v) = (.ok v, [])) ∧
    (∀ pw, 1 ≤ pw → ∀ ne v, -2 ^ (8 * pw - 1) ≤ v → v < 2 ^ (8 * pw - 1) →
      read_ne_isize pw ne (toBytesI ne pw v) = (.ok v, [])) ∧
    (∀ pw, 1 ≤ pw → ∀ v, -2 ^ (8 * pw - 1) ≤ v → v < 2 ^ (8 * pw - 1) →
      read_le_isize pw (toLeBytesI pw v) = (.ok v, [])) ∧
    (∀ pw, 1 ≤ pw → ∀ v, -2 ^ (8 * pw - 1) ≤ v → v < 2 ^ (8 * pw - 1) →
      read_be_isize pw (toBeBytesI pw v) = (.ok v, [])) ∧
    (∀ ne v, v < 2 ^ 32 → read_ne_f32 ne (toBytes ne 4 v) = (.ok v, [])) ∧
    (∀ v, v < 2 ^ 32 → read_le_f32 (toLeBytes 4 v) = (.ok v, [])) ∧
    (∀ v, v < 2 ^ 32 → read_be_f32 (toBeBytes 4 v) = (.ok v, [])) ∧
    (∀ ne v, v < 2 ^ 64 → read_ne_f64 ne (toBytes ne 8 v) = (.ok v, [])) ∧
    (∀ v, v < 2 ^ 64 → read_le_f64 (toLeBytes 8 v) = (.ok v, [])) ∧
    (∀ v, v < 2 ^ 64 → read_be_f64 (toBeBytes 8 v) = (.ok v, [])) :=
  ⟨fun ne v hv => readNum_toBytes 2 ne v hv,
    fun v hv => readNum_toBytes 2 .little v hv,
    fun v hv => readNum_toBytes 2 .big v hv,
    fun ne v hlo hhi => readNumS_toBytesI 2 (by norm_num) ne v hlo hhi,
    fun v hlo hhi => readNumS_toBytesI 2 (by norm_num) .little v hlo hhi,
    fun v hlo hhi => readNumS_toBytesI 2 (by norm_num) .big v hlo hhi,
    fun ne v hv => readNum_toBytes 4 ne v hv,
    fun v hv => readNum_toBytes 4 .little v hv,
    fun v hv => readNum_toBytes 4 .big v hv,
    fun ne v hlo hhi => readNumS_toBytesI 4 (by norm_num) ne v hlo hhi,
    fun v hlo hhi => readNumS_toBytesI 4 (by norm_num) .little v hlo hhi,
    fun v hlo hhi => readNumS_toBytesI 4 (by norm_num) .big v hlo hhi,
    fun ne v hv => readNum_toBytes 8 ne v hv,
    fun v hv => readNum_toBytes 8 .little v hv,
    fun v hv => readNum_toBytes 8 .big v hv,
    fun ne v hlo hhi => readNumS_toBytesI 8 (by norm_num) ne v hlo hhi,
    fun v hlo hhi => readNumS_toBytesI 8 (by norm_num) .little v hlo hhi,
    fun v hlo hhi => readNumS_toBytesI 8 (by norm_num) .big v hlo hhi,
    fun ne v hv => readNum_toBytes 16 ne v hv,
    fun v hv => readNum_toBytes 16 .little v hv,
    fun v hv => readNum_toBytes 16 .big v hv,
    fun ne v hlo hhi => readNumS_toBytesI 16 (by norm_num) ne v hlo hhi,
    fun v hlo hhi => readNumS_toBytesI 16 (by norm_num) .little v hlo hhi,
    fun v hlo hhi => readNumS_toBytesI 16 (by norm_num) .big v hlo hhi,
    fun pw ne v hv => readNum_toBytes pw ne v hv,
    fun pw v hv => readNum_toBytes pw .little v hv,
    fun pw v hv => readNum_toBytes pw .big v hv,
    fun pw hpw ne v hlo hhi => readNumS_toBytesI pw hpw ne v hlo hhi,
    fun pw hpw v hlo hhi => readNumS_toBytesI pw hpw .little v hlo hhi,
    fun pw hpw v hlo hhi => readNumS_toBytesI pw hpw .big v hlo hhi,
    fun ne v hv => readNum_toBytes 4 ne v hv,
    fun v hv => readNum_toBytes 4 .little v hv,
    fun v hv => readNum_toBytes 4 .big v hv,
    fun ne v hv => readNum_toBytes 8 ne v hv,
    fun v hv => readNum_toBytes 8 .little v hv,
    fun v hv => readNum_toBytes 8 .big v hv⟩

/-- Witness for C1: the little-endian `u16` round trip at `v = 37`. -/
theorem claim_C1_witness :
    read_le_u16 (toLeBytes 2 37) = (.ok 37, []) :=
  claim_C1_round_trip.2.1 37 (by norm_num)

/-- Claim C2: for every decode operation with target size
`N = sizeof(target type)`, decoding from a source of exactly `N` bytes
succeeds and leaves the source exhausted, and decoding from a source of
exactly `N - 1` bytes fails with an I/O failure and returns no partial
value (the failing slice `read_exact` consumes the slice to its end) —
stated for the two generic method bodies (covering every generated
numeric method) and spelled out for each generated method. -/
theorem claim_C2_exact_consumption :
    (∀ w e, 1 ≤ w → ExactConsumption w (readNum w e)) ∧
    (∀ w e, 1 ≤ w → ExactConsumption w (readNumS w e)) ∧
    (∀ ne, ExactConsumption 2 (read_ne_u16 ne)) ∧
    ExactConsumption 2 read_le_u16 ∧ ExactConsumption 2 read_be_u16 ∧
    (∀ ne, ExactConsumption 2 (read_ne_i16 ne)) ∧
    ExactConsumption 2 read_le_i16 ∧ ExactConsumption 2 read_be_i16 ∧
    (∀ ne, ExactConsumption 4 (read_ne_u32 ne)) ∧
    ExactConsumption 4 read_le_u32 ∧ ExactConsumption 4 read_be_u32 ∧
    (∀ ne, ExactConsumption 4 (read_ne_i32 ne)) ∧
    ExactConsumption 4 read_le_i32 ∧ ExactConsumption 4 read_be_i32 ∧
    (∀ ne, ExactConsumption 8 (read_ne_u64 ne)) ∧
    ExactConsumption 8 read_le_u64 ∧ ExactConsumption 8 read_be_u64 ∧
    (∀ ne, ExactConsumption 8 (read_ne_i64 ne)) ∧
    ExactConsumption 8 read_le_i64 ∧ ExactConsumption 8 read_be_i64 ∧
    (∀ ne, ExactConsumption 16 (read_ne_u128 ne)) ∧
    ExactConsumption 16 read_le_u128 ∧ ExactConsumption 16 read_be_u128 ∧
    (∀ ne, ExactConsumption 16 (read_ne_i128 ne)) ∧
    ExactConsumption 16 read_le_i128 ∧ ExactConsumption 16 read_be_i128 ∧
    (∀ pw ne, 1 ≤ pw → ExactConsumption pw (read_ne_usize pw ne)) ∧
    (∀ pw, 1 ≤ pw → ExactConsumption pw (read_le_usize pw)) ∧
    (∀ pw, 1 ≤ pw → ExactConsumption pw (read_be_usize pw)) ∧
    (∀ pw ne, 1 ≤ pw → ExactConsumption pw (read_ne_isize pw ne)) ∧
    (∀ pw, 1 ≤ pw → ExactConsumption pw (read_le_isize pw)) ∧
    (∀ pw, 1 ≤ pw → ExactConsumption pw (read_be_isize pw)) ∧
    (∀ ne, ExactConsumption 4 (read_ne_f32 ne)) ∧
    ExactConsumption 4 read_le_f32 ∧ ExactConsumption 4 read_be_f32 ∧
    (∀ ne, ExactConsumption 8 (read_ne_f64 ne)) ∧
    ExactConsumption 8 read_le_f64 ∧ ExactConsumption 8 read_be_f64 ∧
    (∀ ne, ExactConsumption 1 (read_u8 ne)) ∧
    (∀ ne, ExactConsumption 4 (read_char ne)) ∧
    (∀ ne, ExactConsumption 1 (read_bool ne)) :=
  ⟨fun w e hw => exactConsumption_readNum w hw e,
    fun w e hw => exactConsumption_readNumS w hw e,
    fun ne => exactConsumption_readNum 2 (by norm_num) ne,
    exactConsumption_readNum 2 (by norm_num) .little,
    exactConsumption_readNum 2 (by norm_num) .big,
    fun ne => exactConsumption_readNumS 2 (by norm_num) ne,
    exactConsumption_readNumS 2 (by norm_num) .little,
    exactConsumption_readNumS 2 (by norm_num) .big,
    fun ne => exactConsumption_readNum 4 (by norm_num) ne,
    exactConsumption_readNum 4 (by norm_num) .little,
    exactConsumption_readNum 4 (by norm_num) .big,
    fun ne => exactConsumption_readNumS 4 (by norm_num) ne,
    exactConsumption_readNumS 4 (by norm_num) .little,
    exactConsumption_readNumS 4 (by norm_num) .big,
    fun ne => exactConsumption_readNum 8 (by norm_num) ne,
    exactConsumption_readNum 8 (by norm_num) .little,
    exactConsumption_readNum 8 (by norm_num) .big,
    fun ne => exactConsumption_readNumS 8 (by norm_num) ne,
    exactConsumption_readNumS 8 (by norm_num) .little,
    exactConsumption_readNumS 8 (by norm_num) .big,
    fun ne => exactConsumption_readNum 16 (by norm_num) ne,
    exactConsumption_readNum 16 (by norm_num) .little,
    exactConsumption_readNum 16 (by norm_num) .big,
    fun ne => exactConsumption_readNumS 16 (by norm_num) ne,
    exactConsumption_readNumS 16 (by norm_num) .little,
    exactConsumption_readNumS 16 (by norm_num) .big,
    fun pw ne hpw => exactConsumption_readNum pw hpw ne,
    fun pw hpw => exactConsumption_readNum pw hpw .little,
    fun pw hpw => exactConsumption_readNum pw hpw .big,
    fun pw ne hpw => exactConsumption_readNumS pw hpw ne,
    fun pw hpw => exactConsumption_readNumS pw hpw .little,
    fun pw hpw => exactConsumption_readNumS pw hpw .big,
    fun ne => exactConsumption_readNum 4 (by norm_num) ne,
    exactConsumption_readNum 4 (by norm_num) .little,
    exactConsumption_readNum 4 (by norm_num) .big,
    fun ne => exactConsumption_readNum 8 (by norm_num) ne,
    exactConsumption_readNum 8 (by norm_num) .little,
    exactConsumption_readNum 8 (by norm_num) .big,
    fun ne => exactConsumption_readNum 1 (by norm_num) ne,
    fun ne => exactConsumption_read_char ne,
    fun ne => exactConsumption_read_bool ne⟩

/-- Witness for C2: `read_ne_u16` on a two-byte slice succeeds with an
exhausted source, and on a one-byte slice fails with `UnexpectedEof`. -/
theorem claim_C2_witness :
    (∃ v, read_ne_u16 .little [5, 6] = (.ok v, [])) ∧
    read_ne_u16 .little [5] = (.error .unexpectedEof, []) :=
  ⟨(claim_C2_exact_consumption.2.2.1 .little).1 [5, 6] rfl,
    (claim_C2_exact_consumption.2.2.1 .little).2 [5] rfl⟩

/-- Claim C3: `read_char` fails with the short-read I/O error kind if
and only if fewer than 4 bytes are available; when 4 bytes are read
successfully it returns `Ok(Some c)` when the native-order 32-bit value
is a valid Unicode scalar value, and `Ok(None)` — never an error — when
that value is a surrogate (`0xD800 ..= 0xDFFF`) or exceeds the maximum
code point `0x10FFFF`. -/
theorem claim_C3_char_validity (ne : Endian) (s : List Nat) :
    ((∃ er, (read_char ne s).1 = .error er) ↔ s.length < 4) ∧
    (s.length < 4 → read_char ne s = (.error .unexpectedEof, [])) ∧
    (4 ≤ s.length →
      (¬ ((0xD800 ≤ fromBytes ne (s.take 4) ∧
            fromBytes ne (s.take 4) ≤ 0xDFFF) ∨
          0x10FFFF < fromBytes ne (s.take 4)) →
        read_char ne s = (.ok (some (fromBytes ne (s.take 4))), s.drop 4)) ∧
      (((0xD800 ≤ fromBytes ne (s.take 4) ∧
            fromBytes ne (s.take 4) ≤ 0xDFFF) ∨
          0x10FFFF < fromBytes ne (s.take 4)) →
        read_char ne s = (.ok none, s.drop 4))) := by
  refine ⟨⟨?_, ?_⟩, ?_, fun hlen => ⟨?_, ?_⟩⟩
  · rintro ⟨er, her⟩
    by_contra hlen
    rw [read_char_le ne s (by omega)] at her
    simp at her
  · intro hlen
    exact ⟨.unexpectedEof, by rw [read_char_short ne s hlen]⟩
  · intro hlen
    exact read_char_short ne s hlen
  · intro hvalid
    rw [read_char_le ne s hlen]
    unfold char_from_u32
    rw [if_neg hvalid]
  · intro hinvalid
    rw [read_char_le ne s hlen]
    unfold char_from_u32
    rw [if_pos hinvalid]

/-- Witness for C3: decoding the little-endian bytes of `'A'` yields
`Some 0x41`, and decoding the bytes of the surrogate `0xD800` yields
`None`, not an error. -/
theorem claim_C3_witness :
    read_char .little [65, 0, 0, 0] = (.ok (some 65), []) ∧
    read_char .little [0, 0xD8, 0, 0] = (.ok none, []) := by
  constructor
  · have h := ((claim_C3_char_validity .little [65, 0, 0, 0]).2.2
      (by norm_num)).1 (by decide)
    exact h
  · have h := ((claim_C3_char_validity .little [0, 0xD8, 0, 0]).2.2
      (by norm_num)).2 (by decide)
    exact h

/-- Claim C4: every decode operation advances the source's read
position by exactly `sizeof(target)` bytes on success, and on failure
by exactly the number of bytes the source read before the failure,
fewer than `sizeof(target)`: a slice source consumes all of its
remaining bytes (`std` advances the failing slice to its end), and a
general source under the default `read_exact` loop advances by the `k`
bytes it delivered, `k < sizeof(target)`. -/
theorem claim_C4_frame :
    (∀ w e, AdvancesExactly w (readNum w e)) ∧
    (∀ w e, AdvancesExactly w (readNumS w e)) ∧
    (∀ ne, AdvancesExactly 1 (read_u8 ne)) ∧
    (∀ ne, AdvancesExactly 4 (read_char ne)) ∧
    (∀ ne, AdvancesExactly 1 (read_bool ne)) ∧
    (∀ src n, ∃ k, k ≤ n ∧ k ≤ src.data.length ∧
      (readExactG src n).2.data = src.data.drop k ∧
      (∀ got, (readExactG src n).1 = .ok got →
        k = n ∧ got = src.data.take n) ∧
      (∀ er, (readExactG src n).1 = .error er → k < n)) ∧
    (∀ w e src, (readNumG w e src).2 = (readExactG src w).2) :=
  ⟨advances_readNum, advances_readNumS, fun ne => advances_readNum 1 ne,
    advances_read_char, advances_read_bool, readExactG_spec, readNumG_snd⟩

/-- Witness for C4: `read_le_u32` advances a five-byte slice by exactly
four bytes on success, and consumes both bytes of a two-byte slice on
failure. -/
theorem claim_C4_witness :
    (read_le_u32 [1, 2, 3, 4, 9]).2 = [9] ∧
    (read_le_u32 [1, 2]).2 = [] := by
  constructor
  · have h := (claim_C4_frame.1 4 .little).1 [1, 2, 3, 4, 9] (by norm_num)
    exact h
  · have h := (claim_C4_frame.1 4 .little).2 [1, 2] (by norm_num)
    exact h

/-- Claim C5: for every multi-byte numeric type, the little-endian and
big-endian decodes of the same non-palindromic byte sequence of length
`sizeof(T)` differ, and each ordering's decode of a sequence equals the
other ordering's decode of the reversed sequence. -/
theorem claim_C5_ordering :
    (OrderDistinct 2 read_le_u16 read_be_u16 ∧
      OrderReversal 2 read_le_u16 read_be_u16) ∧
    (OrderDistinct 2 read_le_i16 read_be_i16 ∧
      OrderReversal 2 read_le_i16 read_be_i16) ∧
    (OrderDistinct 4 read_le_u32 read_be_u32 ∧
      OrderReversal 4 read_le_u32 read_be_u32) ∧
    (OrderDistinct 4 read_le_i32 read_be_i32 ∧
      OrderReversal 4 read_le_i32 read_be_i32) ∧
    (OrderDistinct 8 read_le_u64 read_be_u64 ∧
      OrderReversal 8 read_le_u64 read_be_u64) ∧
    (OrderDistinct 8 read_le_i64 read_be_i64 ∧
      OrderReversal 8 read_le_i64 read_be_i64) ∧
    (OrderDistinct 16 read_le_u128 read_be_u128 ∧
      OrderReversal 16 read_le_u128 read_be_u128) ∧
    (OrderDistinct 16 read_le_i128 read_be_i128 ∧
      OrderReversal 16 read_le_i128 read_be_i128) ∧
    (∀ pw, OrderDistinct pw (read_le_usize pw) (read_be_usize pw) ∧
      OrderReversal pw (read_le_usize pw) (read_be_usize pw)) ∧
    (∀ pw, OrderDistinct pw (read_le_isize pw) (read_be_isize pw) ∧
      OrderReversal pw (read_le_isize pw) (read_be_isize pw)) ∧
    (OrderDistinct 4 read_le_f32 read_be_f32 ∧
      OrderReversal 4 read_le_f32 read_be_f32) ∧
    (OrderDistinct 8 read_le_f64 read_be_f64 ∧
      OrderReversal 8 read_le_f64 read_be_f64) :=
  ⟨⟨orderDistinct_readNum 2, orderReversal_readNum 2⟩,
    ⟨orderDistinct_readNumS 2, orderReversal_readNumS 2⟩,
    ⟨orderDistinct_readNum 4, orderReversal_readNum 4⟩,
    ⟨orderDistinct_readNumS 4, orderReversal_readNumS 4⟩,
    ⟨orderDistinct_readNum 8, orderReversal_readNum 8⟩,
    ⟨orderDistinct_readNumS 8, orderReversal_readNumS 8⟩,
    ⟨orderDistinct_readNum 16, orderReversal_readNum 16⟩,
    ⟨orderDistinct_readNumS 16, orderReversal_readNumS 16⟩,
    fun pw => ⟨orderDistinct_readNum pw, orderReversal_readNum pw⟩,
    fun pw => ⟨orderDistinct_readNumS pw, orderReversal_readNumS pw⟩,
    ⟨orderDistinct_readNum 4, orderReversal_readNum 4⟩,
    ⟨orderDistinct_readNum 8, orderReversal_readNum 8⟩⟩

/-- Witness for C5: on `[1,2,3,4]` the little- and big-endian `u32`
decodes differ, and the little-endian decode equals the big-endian
decode of the reversal. -/
theorem claim_C5_witness :
    (read_le_u32 [1, 2, 3, 4]).1 ≠ (read_be_u32 [1, 2, 3, 4]).1 ∧
    (read_le_u32 [1, 2, 3, 4]).1 = (read_be_u32 [4, 3, 2, 1]).1 := by
  constructor
  · exact claim_C5_ordering.2.2.1.1 [1, 2, 3, 4] rfl (by decide) (by decide)
  · have h := (claim_C5_ordering.2.2.1.2 [1, 2, 3, 4] rfl).1
    exact h

/-- Claim C6: `read_bool` reads exactly one byte and maps it
many-to-one to a boolean: the byte `0x00` yields `false`, and every
other byte value (e.g. `0x01`, `0xFF`, `0x42`) yields `true`. -/
theorem claim_C6_bool (ne : Endian) :
    (∀ b s, read_bool ne (b :: s) = (.ok (b != 0), s)) ∧
    (∀ s, read_bool ne (0 :: s) = (.ok false, s)) ∧
    (∀ b s, b ≠ 0 → read_bool ne (b :: s) = (.ok true, s)) ∧
    read_bool ne [] = (.error .unexpectedEof, []) := by
  have key : ∀ b s, read_bool ne (b :: s) = (.ok (b != 0), s) := by
    intro b s
    rw [read_bool_le ne (b :: s) (by simp)]
    simp [fromBytes_single]
  refine ⟨key, fun s => by rw [key 0 s]; rfl,
    fun b s hb => by rw [key b s]; simp [hb],
    read_bool_short ne [] (by norm_num)⟩

/-- Witness for C6: the boolean mapping at `0x00`, `0x01`, `0xFF`,
`0x42`. -/
theorem claim_C6_witness :
    read_bool .little [0x00] = (.ok false, []) ∧
    read_bool .little [0x01] = (.ok true, []) ∧
    read_bool .little [0xFF] = (.ok true, []) ∧
    read_bool .little [0x42] = (.ok true, []) :=
  ⟨(claim_C6_bool .little).2.1 [],
    (claim_C6_bool .little).2.2.1 1 [] (by decide),
    (claim_C6_bool .little).2.2.1 255 [] (by decide),
    (claim_C6_bool .little).2.2.1 66 [] (by decide)⟩

/-- Claim C7: when the underlying source's read fails, every decode
operation returns that failure unmodified (bare `?` propagation).  On a
slice source, the error is exactly `read_exact`'s error and is always
the short-read `UnexpectedEof` (a slice has no other failure).  On a
general source, the decode returns exactly `read_exact`'s error, and
every error of the default `read_exact` loop is either its own
short-read `UnexpectedEof` or exactly the error value the source
reported — never wrapped, never a new kind. -/
theorem claim_C7_error_propagation :
    (∀ w e, PropagatesReadExact w (readNum w e)) ∧
    (∀ w e, PropagatesReadExact w (readNumS w e)) ∧
    (∀ ne, PropagatesReadExact 1 (read_u8 ne)) ∧
    (∀ ne, PropagatesReadExact 4 (read_char ne)) ∧
    (∀ ne, PropagatesReadExact 1 (read_bool ne)) ∧
    (∀ n s er, (readExactSlice n s).1 = .error er → er = .unexpectedEof) ∧
    (∀ w e src er,
      (readNumG w e src).1 = .error er ↔ (readExactG src w).1 = .error er) ∧
    (∀ src n er, (readExactG src n).1 = .error er →
      er = .unexpectedEof ∨ src.tailErr = some er) :=
  ⟨propagates_readNum, propagates_readNumS,
    fun ne => propagates_readNum 1 ne, propagates_read_char,
    propagates_read_bool, readExactSlice_error, readNumG_error_iff,
    readExactG_error⟩

/-- Witness for C7: a source that yields two bytes and then reports the
error `other 7` makes a four-byte decode fail with exactly `other 7`. -/
theorem claim_C7_witness :
    (readNumG 4 .little ⟨[1, 2], [2], some (.other 7)⟩).1 =
      .error (.other 7) :=
  (claim_C7_error_propagation.2.2.2.2.2.2.1 4 .little
    ⟨[1, 2], [2], some (.other 7)⟩ (.other 7)).mpr (by rfl)

/-- Claim C8: decoding the 8-byte sequence `[24,45,68,84,251,33,9,64]`
with `read_le_f64` succeeds and yields exactly `f64` π — here its
IEEE-754 bit pattern `0x400921FB54442D18`, the bits of
`std::f64::consts::PI`. -/
theorem claim_C8_pi :
    read_le_f64 [24, 45, 68, 84, 251, 33, 9, 64] =
      (.ok 0x400921FB54442D18, []) := by
  rfl

/-- Counterexample to C9 as stated: on the two-byte slice `[1, 2]`,
`read_le_u32` fails, but the slice is not left unchanged and the
consumption is not zero bytes — `std`'s slice `read_exact` advances
the failing slice to its end, consuming both bytes. -/
theorem claim_C9_counterexample :
    read_le_u32 [1, 2] = (.error .unexpectedEof, []) ∧
    (read_le_u32 [1, 2]).2 ≠ [1, 2] := by
  constructor
  · rfl
  · decide

/-- Claim C9, amended: a decode operation invoked on a byte-slice
source holding fewer bytes than `sizeof(target)` fails with the
short-read error and returns no value, and the slice is advanced to
its end — all of its remaining bytes are consumed on that failure,
because the slice implementation of `read_exact` advances the slice
to its end before returning `UnexpectedEof`. -/
theorem claim_C9_short_read :
    (∀ w e, ShortReadConsumesAll w (readNum w e)) ∧
    (∀ w e, ShortReadConsumesAll w (readNumS w e)) ∧
    (∀ ne, ShortReadConsumesAll 1 (read_u8 ne)) ∧
    (∀ ne, ShortReadConsumesAll 4 (read_char ne)) ∧
    (∀ ne, ShortReadConsumesAll 1 (read_bool ne)) :=
  ⟨shortConsumesAll_readNum, shortConsumesAll_readNumS,
    fun ne => shortConsumesAll_readNum 1 ne,
    shortConsumesAll_read_char, shortConsumesAll_read_bool⟩

/-- Witness for the amended C9: `read_le_u64` on a three-byte slice
fails and returns the slice consumed to its end. -/
theorem claim_C9_witness :
    read_le_u64 [1, 2, 3] = (.error .unexpectedEof, []) :=
  claim_C9_short_read.1 8 .little [1, 2, 3] (by norm_num)

/-- Claim C10 (implicit): every decode operation is deterministic — a
pure function of the source's bytes and, for native-order operations,
of the explicit host-byte-order parameter: two invocations on the same
byte sequence return the same result, and the outcome (value or error)
depends only on the first `sizeof(target)` bytes yielded. -/
theorem claim_C10_determinism :
    (∀ w e s, readNum w e s = readNum w e s) ∧
    (∀ w e, OutcomeDependsOnPrefix w (readNum w e)) ∧
    (∀ w e, OutcomeDependsOnPrefix w (readNumS w e)) ∧
    (∀ ne, OutcomeDependsOnPrefix 1 (read_u8 ne)) ∧
    (∀ ne, OutcomeDependsOnPrefix 4 (read_char ne)) ∧
    (∀ ne, OutcomeDependsOnPrefix 1 (read_bool ne)) :=
  ⟨fun _ _ _ => rfl, prefixDet_readNum, prefixDet_readNumS,
    fun ne => prefixDet_readNum 1 ne, prefixDet_read_char,
    prefixDet_read_bool⟩

/-- Witness for C10: `read_be_u16`'s outcome agrees on two sources that
share their first two bytes. -/
theorem claim_C10_witness :
    (read_be_u16 [1, 2, 99]).1 = (read_be_u16 [1, 2, 77, 88]).1 :=
  claim_C10_determinism.2.1 2 .big [1, 2, 99] [1, 2, 77, 88] rfl
